import Mathlib

/-!
Shallow embedding of the `VisitManager` recent-visits store
(`recent_visits.h` / the C implementation in `src/cmd/main.go` lines 40-605).

Modelling conventions:
* Machine integers (`uint32_t`, `size_t`, `time_t`, `long`) are `Nat`;
  where the wire format fixes a width we encode `% 2^w` explicitly.
* C strings (`char*`) are `List Nat` of their bytes before the terminating
  NUL byte.  Every use the code makes of a string (`strlen`, `strdup`,
  `fwrite` of `strlen+1` bytes, `printf %s`) observes exactly that prefix,
  so this is the observable value of the pointer.
* A `NULL`-able pointer that a claim distinguishes is an `Option`.
* Allocation (`malloc`/`strdup`/`realloc`) is modelled by an explicit
  oracle `List Bool`: each attempt consumes the head (an empty oracle
  means every attempt succeeds, the normal run).
* Undefined behaviour (an out-of-bounds array access) makes an operation
  return `none`: past that point the C program has no defined state.
* `timespec_get` (the wall clock) is an explicit `now` argument.
* The on-disk file is a `List Nat` of bytes; `fwrite`/`fread` of
  word-sized integers are 8-byte little-endian (the x86-64 layout the
  code is compiled for), `uint32_t` is 4 bytes, `struct timespec` is two
  8-byte fields.
-/

/-- `struct timespec`: seconds and nanoseconds. -/
structure Timespec where
  tv_sec : Nat
  tv_nsec : Nat
deriving Repr, DecidableEq

instance : Inhabited Timespec := ⟨⟨0, 0⟩⟩

/-- `Visit` (recent_visits.h): id, url bytes, text bytes, timestamp. -/
structure Visit where
  visit_id : Nat
  url : List Nat
  text : List Nat
  time : Timespec
deriving Repr, DecidableEq

instance : Inhabited Visit := ⟨⟨0, [], [], default⟩⟩

/-- `UserVisits` (main.go lines 44-49): one user's record.  `visit_count`
is `visits.length`; `capacity` is the allocated slot count of the
`Visit**` array (it only drives the realloc decisions). -/
structure UserVisits where
  user_id : Nat
  visits : List Visit
  capacity : Nat
deriving Repr, DecidableEq

/-- `struct VisitManager` (main.go lines 52-58).  `user_count` is
`users.length`; `user_capacity` is the allocated slot count of the
`users` array. -/
structure VisitManager where
  users : List UserVisits
  user_capacity : Nat
  max_visits : Nat
  path : List Nat
deriving Repr, DecidableEq

/-- `find_user` (main.go lines 61-68): linear scan for the first record
with the given user id, returning its index and the record. -/
def find_user : List UserVisits → Nat → Option (Nat × UserVisits)
  | [], _ => none
  | u :: rest, uid =>
    if u.user_id == uid then some (0, u)
    else
      match find_user rest uid with
      | none => none
      | some (i, w) => some (i + 1, w)

/-- Writing back a mutated record into the manager's `users` array. -/
def setUser (m : VisitManager) (i : Nat) (u : UserVisits) : VisitManager :=
  { m with users := m.users.set i u }

/-- Allocation oracle: each attempt consumes the head of the list; an
exhausted oracle means the attempt succeeds. -/
def takeAlloc : List Bool → Bool × List Bool
  | [] => (true, [])
  | b :: r => (b, r)

/-- `create_user` (main.go lines 71-88): two allocations (the record and
its `visits` array); failure of either yields no record. -/
def create_user (uid cap : Nat) (σ : List Bool) : Option UserVisits × List Bool :=
  match takeAlloc σ with
  | (false, σ1) => (none, σ1)
  | (true, σ1) =>
    match takeAlloc σ1 with
    | (false, σ2) => (none, σ2)
    | (true, σ2) => (some ⟨uid, [], cap⟩, σ2)

/-- `create_visit` (main.go lines 111-136): three allocations (the
struct, `strdup` of url, `strdup` of text); the timestamp is the current
wall clock, passed as `now`. -/
def create_visit (vid : Nat) (url text : List Nat) (now : Timespec)
    (σ : List Bool) : Option Visit × List Bool :=
  match takeAlloc σ with
  | (false, σ1) => (none, σ1)
  | (true, σ1) =>
    match takeAlloc σ1 with
    | (false, σ2) => (none, σ2)
    | (true, σ2) =>
      match takeAlloc σ2 with
      | (false, σ3) => (none, σ3)
      | (true, σ3) => (some ⟨vid, url, text, now⟩, σ3)

/-- The strict timestamp comparison of main.go lines 449-451:
`t1.tv_sec < t2.tv_sec || (t1.tv_sec == t2.tv_sec && t1.tv_nsec < t2.tv_nsec)`. -/
def tsLt (a b : Timespec) : Prop :=
  a.tv_sec < b.tv_sec ∨ (a.tv_sec = b.tv_sec ∧ a.tv_nsec < b.tv_nsec)

instance (a b : Timespec) : Decidable (tsLt a b) := by
  unfold tsLt; infer_instance

/-- The oldest-visit scan of main.go lines 445-455, carried out from
index `i` with current best index `bi` and best time `bt`. -/
def oldestScan : List Visit → Nat → Nat → Timespec → Nat × Timespec
  | [], _, bi, bt => (bi, bt)
  | v :: rest, i, bi, bt =>
    if tsLt v.time bt then oldestScan rest (i + 1) i v.time
    else oldestScan rest (i + 1) bi bt

/-- Index of the first visit with minimal `(tv_sec, tv_nsec)` timestamp
(main.go lines 445-455; the scan starts with index 0 as the best). -/
def oldestIdx (l : List Visit) : Nat :=
  match l with
  | [] => 0
  | v :: rest => (oldestScan rest 1 0 v.time).1

/-- Swap-with-last removal (main.go lines 460-465 and 561-568): the last
live slot moves into position `j` unless `j` is the last slot, then the
count drops by one. -/
def swapRemove (l : List Visit) (j : Nat) : List Visit :=
  if j + 1 < l.length then (l.set j ((l.getLast?).getD default)).dropLast
  else l.dropLast

/-- The eviction block of `VisitManagerAddVisit` (main.go lines 443-466).
On an empty record the code reads `visits[0]` out of bounds (line 446):
undefined behaviour, modelled as `none`. -/
def evict_oldest (u : UserVisits) : Option UserVisits :=
  match u.visits with
  | [] => none
  | _ :: _ => some { u with visits := swapRemove u.visits (oldestIdx u.visits) }

/-- The tail of `VisitManagerAddVisit` once the user record `u` (at index
`i` of the manager's array) is in hand: duplicate check (lines 429-434),
`create_visit` (lines 437-440), eviction when at capacity (lines
443-466), `visits`-array resize (lines 469-483), append (line 486).  The
final `serialize_manager` call (line 489) touches only the file, not the
in-memory state.  Appending past the allocated capacity would be an
out-of-bounds write: undefined behaviour, modelled as `none`. -/
def addVisitCore (m : VisitManager) (i : Nat) (u : UserVisits) (vid : Nat)
    (url text : List Nat) (now : Timespec) (σ : List Bool) :
    Option (VisitManager × Bool) :=
  if u.visits.any (fun v => v.visit_id == vid) then some (m, true)
  else
    match create_visit vid url text now σ with
    | (none, _) => some (m, false)
    | (some visit, σ1) =>
      match (if m.max_visits ≤ u.visits.length then evict_oldest u else some u) with
      | none => none
      | some u1 =>
        if u1.capacity ≤ u1.visits.length then
          match takeAlloc σ1 with
          | (false, _) => some (setUser m i u1, false)
          | (true, _) =>
            let cap2 := if m.max_visits < u1.capacity * 2 then m.max_visits
                        else u1.capacity * 2
            if cap2 ≤ u1.visits.length then none
            else some (setUser m i
              { u1 with visits := u1.visits ++ [visit], capacity := cap2 }, true)
        else some (setUser m i { u1 with visits := u1.visits ++ [visit] }, true)

/-- `VisitManagerAddVisit` (main.go lines 399-492).  The arguments model
non-NULL `manager`/`url`/`text` pointers (a NULL argument returns false
at line 402 without touching any state).  For an unknown user the code
may first grow the `users` array (lines 409-418), then creates the
record with initial capacity `max_visits` (line 420) and appends it
(line 425) before anything else can fail. -/
def VisitManagerAddVisit (m : VisitManager) (uid vid : Nat)
    (url text : List Nat) (now : Timespec) (σ : List Bool) :
    Option (VisitManager × Bool) :=
  match find_user m.users uid with
  | some (i, u) => addVisitCore m i u vid url text now σ
  | none =>
    match (if m.user_capacity ≤ m.users.length then
             match takeAlloc σ with
             | (false, σ') => (none, σ')
             | (true, σ') =>
               (some { m with user_capacity := m.user_capacity * 2 }, σ')
           else (some m, σ) : Option VisitManager × List Bool) with
    | (none, _) => some (m, false)
    | (some m1, σ1) =>
      match create_user uid m1.max_visits σ1 with
      | (none, _) => some (m1, false)
      | (some u, σ2) =>
        addVisitCore { m1 with users := m1.users ++ [u] } m1.users.length u
          vid url text now σ2

/-- One unguided `qsort` outcome.  `sort_visits` (main.go lines 495-518)
passes `compare_visits` to `qsort`, but the comparator casts the
`Visit**` element pointers directly to `Visit*` and reads `time` at byte
offset 24 from the array slot itself — bytes of neighbouring slots or
past the allocation — so for two or more elements the call has undefined
behaviour and yields no particular order.  The unconstrained `shuffle`
parameter stands for that unspecified outcome; with at most one element
`qsort` never calls the comparator and leaves the array unchanged. -/
def sort_visits (shuffle : List Visit → List Visit) (l : List Visit) : List Visit :=
  if l.length ≤ 1 then l else shuffle l

/-- `VisitManagerGetRecentVisits` (main.go lines 520-536): unknown user
gives a NULL result (`none`) and count 0; a known user's record is
sorted in place (see `sort_visits`) and a borrowed view (`some`) plus
the record's `visit_count` field are returned. -/
def VisitManagerGetRecentVisits (shuffle : List Visit → List Visit)
    (m : VisitManager) (uid : Nat) :
    VisitManager × Option (List Visit) × Nat :=
  match find_user m.users uid with
  | none => (m, none, 0)
  | some (i, u) =>
    let sorted := sort_visits shuffle u.visits
    (setUser m i { u with visits := sorted }, some sorted, u.visits.length)

/-- `VisitManagerClear` (main.go lines 584-605): unknown user is a
no-op; otherwise every visit is freed and the count is reset to zero —
the record itself (and its capacity) stays. -/
def VisitManagerClear (m : VisitManager) (uid : Nat) : VisitManager :=
  match find_user m.users uid with
  | none => m
  | some (i, u) => setUser m i { u with visits := [] }

/-- First index of a visit with the given id (the inner scan of
`VisitManagerDelete`, main.go lines 556-557). -/
def findVisitIdx : List Visit → Nat → Option Nat
  | [], _ => none
  | v :: rest, id =>
    if v.visit_id == id then some 0
    else (findVisitIdx rest id).map (· + 1)

/-- One pass of the inner delete loop (main.go lines 556-571): remove
the first visit with the given id by swap-with-last, or report no match. -/
def removeFirst (l : List Visit) (id : Nat) : Option (List Visit) :=
  match findVisitIdx l id with
  | none => none
  | some j => some (swapRemove l j)

/-- The outer delete loop (main.go lines 552-573): each requested id in
turn removes its first match, if any, from the current record; the flag
records whether any id matched. -/
def deleteLoop : List Visit → List Nat → List Visit × Bool
  | l, [] => (l, false)
  | l, id :: rest =>
    match removeFirst l id with
    | none => deleteLoop l rest
    | some l' => ((deleteLoop l' rest).1, true)

/-- `VisitManagerDelete` (main.go lines 538-582).  `none` arguments model
NULL pointers (line 539); an empty id list also fails fast.  The result
is the manager state after the call together with the returned flag. -/
def VisitManagerDelete (mo : Option VisitManager) (uid : Nat)
    (ids : Option (List Nat)) : Option VisitManager × Bool :=
  match mo, ids with
  | none, _ => (none, false)
  | some m, none => (some m, false)
  | some m, some l =>
    if l.length == 0 then (some m, false)
    else
      match find_user m.users uid with
      | none => (some m, false)
      | some (i, u) =>
        match deleteLoop u.visits l with
        | (l', true) => (some (setUser m i { u with visits := l' }), true)
        | (_, false) => (some m, false)

/-! ### The persistence codec (main.go lines 139-343)

The file is a byte sequence.  `fwrite`/`fread` of a `size_t` moves 8
little-endian bytes, of a `uint32_t` 4 bytes, of a `struct timespec` 16
bytes (two 8-byte fields); a C string is written as its `strlen + 1`
bytes, terminator included. -/

/-- `k` little-endian bytes of `n` (the memory image `fwrite` copies). -/
def leBytes : Nat → Nat → List Nat
  | 0, _ => []
  | k + 1, n => n % 256 :: leBytes k (n / 256)

/-- The value a `k`-byte little-endian memory image denotes. -/
def leVal : List Nat → Nat
  | [] => 0
  | b :: bs => b % 256 + 256 * leVal bs

/-- `fwrite(&x, sizeof(size_t), 1, f)`: 8 little-endian bytes. -/
def encW (n : Nat) : List Nat := leBytes 8 n

/-- `fwrite(&x, sizeof(uint32_t), 1, f)`: 4 little-endian bytes. -/
def encU32 (n : Nat) : List Nat := leBytes 4 n

/-- `fwrite(&t, sizeof(struct timespec), 1, f)`: `tv_sec` then `tv_nsec`,
8 bytes each. -/
def encTs (t : Timespec) : List Nat := encW t.tv_sec ++ encW t.tv_nsec

/-- The bytes `serialize_manager` writes for one visit (main.go lines
162-180): id, url length (`strlen + 1`) and url bytes with terminator,
text likewise, timestamp. -/
def serVisit (v : Visit) : List Nat :=
  encU32 v.visit_id
    ++ encW (v.url.length + 1) ++ v.url ++ [0]
    ++ encW (v.text.length + 1) ++ v.text ++ [0]
    ++ encTs v.time

/-- The bytes written for one user record of the given id and visit
list (main.go lines 152-181): id, visit count, then each visit. -/
def encodeUserRec (r : Nat × List Visit) : List Nat :=
  encU32 r.1 ++ encW r.2.length ++ (r.2.map serVisit).flatten

/-- A well-formed file image: declared capacity bound, user count, then
each user record.  `serialize_manager` produces exactly this shape;
`encodeFile` also covers files written by other states (for instance a
user with more stored visits than a later reader's capacity bound). -/
def encodeFile (storedMax : Nat) (rs : List (Nat × List Visit)) : List Nat :=
  encW storedMax ++ encW rs.length ++ (rs.map encodeUserRec).flatten

/-- `serialize_manager` (main.go lines 139-184): capacity bound, user
count, then every user record in array order. -/
def serialize_manager (m : VisitManager) : List Nat :=
  encodeFile m.max_visits (m.users.map fun u => (u.user_id, u.visits))

/-- `fread(buf, 1, n, f)`: `n` bytes, failing (short read) at end of
stream. -/
def readBytes (n : Nat) (s : List Nat) : Option (List Nat × List Nat) :=
  if n ≤ s.length then some (s.take n, s.drop n) else none

/-- `fread` of one `size_t`. -/
def readW (s : List Nat) : Option (Nat × List Nat) :=
  match readBytes 8 s with
  | none => none
  | some (b, r) => some (leVal b, r)

/-- `fread` of one `uint32_t`. -/
def readU32 (s : List Nat) : Option (Nat × List Nat) :=
  match readBytes 4 s with
  | none => none
  | some (b, r) => some (leVal b, r)

/-- The C-string value of a read buffer: the bytes before the first NUL
(every later use of the pointer — `strlen`, `fwrite`, `printf` — reads
exactly this prefix). -/
def cstr (bs : List Nat) : List Nat := bs.takeWhile (fun b => b != 0)

/-- Reading one visit (main.go lines 256-314): id, url length and url
bytes, text length and text bytes, timestamp.  Any short read fails the
whole load. -/
def parseVisit (s : List Nat) : Option (Visit × List Nat) :=
  match readU32 s with
  | none => none
  | some (vid, s1) =>
    match readW s1 with
    | none => none
    | some (ulen, s2) =>
      match readBytes ulen s2 with
      | none => none
      | some (ubuf, s3) =>
        match readW s3 with
        | none => none
        | some (tlen, s4) =>
          match readBytes tlen s4 with
          | none => none
          | some (tbuf, s5) =>
            match readW s5 with
            | none => none
            | some (sec, s6) =>
              match readW s6 with
              | none => none
              | some (nsec, s7) =>
                some (⟨vid, cstr ubuf, cstr tbuf, ⟨sec, nsec⟩⟩, s7)

/-- The per-user visit loop of `deserialize_manager` (main.go lines
255-324): every one of the `n` stored visits is read (keeping the stream
aligned), but only while `keep` slots remain is a visit retained
(`j < max_visits`, line 317); the rest are freed (line 322). -/
def parseVisits : Nat → Nat → List Nat → Option (List Visit × List Nat)
  | 0, _, s => some ([], s)
  | n + 1, keep, s =>
    match parseVisit s with
    | none => none
    | some (v, s1) =>
      match parseVisits n (keep - 1) s1 with
      | none => none
      | some (vs, s2) => some ((if 0 < keep then v :: vs else vs), s2)

/-- Outcome of decoding one user record: success, a failure before the
record was stored into its `users` slot (`fread` of the id or count,
main.go lines 237-244), or a failure after it (line 252 stores the slot
before the visit loop, so every visit-level failure leaves it
initialized). -/
inductive UserDecode where
  | ok (u : UserVisits) (rest : List Nat)
  | failBefore
  | failAfter
deriving Repr, DecidableEq

/-- Reading one user (main.go lines 236-252 and the visit loop): id,
stored visit count, then the visits; the record's capacity is the stored
count when positive, else 10 (line 247). -/
def parseUser (maxVisits : Nat) (s : List Nat) : UserDecode :=
  match readU32 s with
  | none => .failBefore
  | some (uid, s1) =>
    match readW s1 with
    | none => .failBefore
    | some (n, s2) =>
      match parseVisits n maxVisits s2 with
      | none => .failAfter
      | some (vs, s3) =>
        .ok ⟨uid, vs, if 0 < n then n else 10⟩ s3

/-- Outcome of the user loop: success, or the index of the user at which
decoding failed together with whether that user's slot had already been
stored. -/
inductive UsersDecode where
  | ok (us : List UserVisits) (rest : List Nat)
  | fail (idx : Nat) (slotStored : Bool)
deriving Repr, DecidableEq

/-- The user loop of `deserialize_manager` (main.go lines 235-325). -/
def parseUsers (maxVisits : Nat) : Nat → List Nat → UsersDecode
  | 0, s => .ok [] s
  | n + 1, s =>
    match parseUser maxVisits s with
    | .failBefore => .fail 0 false
    | .failAfter => .fail 0 true
    | .ok u s1 =>
      match parseUsers maxVisits n s1 with
      | .ok us s2 => .ok (u :: us) s2
      | .fail j stored => .fail (j + 1) stored

/-- `deserialize_manager` (main.go lines 187-343): reads the stored
capacity bound and discards it in favour of the caller's `maxVisits`
(lines 206-214), reads the user count (the `users` array capacity is
that count when positive, else 10, line 225), then every user; trailing
bytes after the declared users are never read.  Failure handling: a
short read before the user loop returns NULL directly (lines 208-222),
modelled `some none`.  A failure inside the loop jumps to the cleanup
(lines 330-342), which walks all `user_count` slots of the `malloc`'d —
and therefore partially uninitialized — `users` array, testing and
freeing each pointer: reading a slot that was never stored is undefined
behaviour, modelled `none`.  The walk is defined only when every slot
had been stored, which happens exactly for a visit-level failure at the
last user; then NULL is returned cleanly (`some none`).  Allocations are
modelled as succeeding. -/
def deserialize_manager (bytes : List Nat) (path : List Nat) (maxVisits : Nat) :
    Option (Option VisitManager) :=
  match readW bytes with
  | none => some none
  | some (_, s1) =>
    match readW s1 with
    | none => some none
    | some (ucount, s2) =>
      match parseUsers maxVisits ucount s2 with
      | .ok us _ =>
        some (some ⟨us, if 0 < ucount then ucount else 10, maxVisits, path⟩)
      | .fail j stored =>
        if stored = true ∧ j + 1 = ucount then some none else none

/-- `VisitManagerCreate` (main.go lines 345-381): when a file exists its
bytes are handed to `deserialize_manager`; if the load returns NULL a
fresh manager (no users, `users` capacity 10, the given bound and path)
is built instead, and if the load runs into undefined behaviour so does
`Create` (`none`).  Allocations for the fresh manager are modelled as
succeeding (their failure is the only `NULL` return of the C function). -/
def VisitManagerCreate (file : Option (List Nat)) (path : List Nat)
    (maxVisits : Nat) : Option VisitManager :=
  match file with
  | none => some ⟨[], 10, maxVisits, path⟩
  | some bytes =>
    match deserialize_manager bytes path maxVisits with
    | none => none
    | some (some m) => some m
    | some none => some ⟨[], 10, maxVisits, path⟩

/-! ### Well-formedness of the in-memory values a file can carry -/

/-- The constraints under which a `Visit` survives the byte codec
unchanged: the id fits `uint32_t`, url and text are NUL-free byte
strings whose `strlen + 1` fits a word, and the timestamp fields fit
their 8-byte slots. -/
def WfVisit (v : Visit) : Prop :=
  v.visit_id < 2 ^ 32
    ∧ (∀ b ∈ v.url, b < 256 ∧ b ≠ 0)
    ∧ (∀ b ∈ v.text, b < 256 ∧ b ≠ 0)
    ∧ v.url.length + 1 < 2 ^ 64
    ∧ v.text.length + 1 < 2 ^ 64
    ∧ v.time.tv_sec < 2 ^ 64
    ∧ v.time.tv_nsec < 2 ^ 64

instance (v : Visit) : Decidable (WfVisit v) := by
  unfold WfVisit; infer_instance

/-- Well-formedness of one user record on the wire. -/
def WfRec (r : Nat × List Visit) : Prop :=
  r.1 < 2 ^ 32 ∧ r.2.length < 2 ^ 64 ∧ ∀ v ∈ r.2, WfVisit v

instance (r : Nat × List Visit) : Decidable (WfRec r) := by
  unfold WfRec; infer_instance

/-- Well-formedness of a whole manager state on the wire. -/
def WfManager (m : VisitManager) : Prop :=
  m.max_visits < 2 ^ 64 ∧ m.users.length < 2 ^ 64
    ∧ ∀ u ∈ m.users, WfRec (u.user_id, u.visits)

instance (m : VisitManager) : Decidable (WfManager m) := by
  unfold WfManager; infer_instance

/-! ### Supporting lemmas -/

theorem find_user_mem : ∀ (us : List UserVisits) (uid i : Nat) (u : UserVisits),
    find_user us uid = some (i, u) → us[i]? = some u ∧ u.user_id = uid := by
  intro us
  induction us with
  | nil => intro uid i u h; simp [find_user] at h
  | cons a rest ih =>
    intro uid i u h
    unfold find_user at h
    by_cases hc : (a.user_id == uid) = true
    · rw [if_pos hc] at h
      simp only [Option.some.injEq, Prod.mk.injEq] at h
      obtain ⟨rfl, rfl⟩ := h
      exact ⟨by simp, by simpa using hc⟩
    · rw [if_neg hc] at h
      cases hfr : find_user rest uid with
      | none => rw [hfr] at h; cases h
      | some p =>
        obtain ⟨j, w⟩ := p
        rw [hfr] at h
        simp only [Option.some.injEq, Prod.mk.injEq] at h
        obtain ⟨rfl, rfl⟩ := h
        obtain ⟨hg, he⟩ := ih uid j w hfr
        exact ⟨by simpa using hg, he⟩

theorem set_self : ∀ (us : List UserVisits) (i : Nat) (u : UserVisits),
    us[i]? = some u → us.set i u = us := by
  intro us
  induction us with
  | nil => intro i u h; simp at h
  | cons a rest ih =>
    intro i u h
    cases i with
    | zero => simp at h; simp [h]
    | succ j => simp at h; simp [ih j u h]

theorem find_user_set : ∀ (us : List UserVisits) (uid i : Nat) (u u' : UserVisits),
    find_user us uid = some (i, u) → u'.user_id = uid →
    find_user (us.set i u') uid = some (i, u') := by
  intro us
  induction us with
  | nil => intro uid i u u' h _; simp [find_user] at h
  | cons a rest ih =>
    intro uid i u u' h hid
    unfold find_user at h
    by_cases hc : (a.user_id == uid) = true
    · rw [if_pos hc] at h
      simp only [Option.some.injEq, Prod.mk.injEq] at h
      obtain ⟨rfl, rfl⟩ := h
      simp only [List.set]
      unfold find_user
      rw [if_pos (by simp [hid])]
    · rw [if_neg hc] at h
      cases hfr : find_user rest uid with
      | none => rw [hfr] at h; cases h
      | some p =>
        obtain ⟨j, w⟩ := p
        rw [hfr] at h
        simp only [Option.some.injEq, Prod.mk.injEq] at h
        obtain ⟨rfl, rfl⟩ := h
        simp only [List.set]
        unfold find_user
        rw [if_neg hc, ih uid j _ u' hfr hid]

theorem oldestScan_min : ∀ (rest : List Visit) (i bi : Nat) (bt : Timespec),
    ¬ tsLt bt (oldestScan rest i bi bt).2
    ∧ ∀ v ∈ rest, ¬ tsLt v.time (oldestScan rest i bi bt).2 := by
  intro rest
  induction rest with
  | nil =>
    intro i bi bt
    refine ⟨?_, by simp⟩
    simp only [oldestScan]
    unfold tsLt; omega
  | cons v rest ih =>
    intro i bi bt
    unfold oldestScan
    by_cases hv : tsLt v.time bt
    · rw [if_pos hv]
      obtain ⟨h1, h2⟩ := ih (i + 1) i v.time
      refine ⟨?_, ?_⟩
      · unfold tsLt at *; omega
      · intro w hw
        rcases List.mem_cons.mp hw with rfl | hm
        · exact h1
        · exact h2 w hm
    · rw [if_neg hv]
      obtain ⟨h1, h2⟩ := ih (i + 1) bi bt
      refine ⟨h1, ?_⟩
      intro w hw
      rcases List.mem_cons.mp hw with rfl | hm
      · unfold tsLt at *; omega
      · exact h2 w hm

theorem oldestScan_at : ∀ (rest : List Visit) (i bi : Nat) (bt : Timespec),
    oldestScan rest i bi bt = (bi, bt)
    ∨ ∃ j w, rest[j]? = some w ∧ oldestScan rest i bi bt = (i + j, w.time) := by
  intro rest
  induction rest with
  | nil => intro i bi bt; left; rfl
  | cons v rest ih =>
    intro i bi bt
    unfold oldestScan
    by_cases hv : tsLt v.time bt
    · rw [if_pos hv]
      rcases ih (i + 1) i v.time with h | ⟨j, w, hj, hr⟩
      · right; exact ⟨0, v, by simp, by simpa using h⟩
      · right
        refine ⟨j + 1, w, by simpa using hj, ?_⟩
        rw [hr]; congr 1; omega
    · rw [if_neg hv]
      rcases ih (i + 1) bi bt with h | ⟨j, w, hj, hr⟩
      · left; exact h
      · right
        refine ⟨j + 1, w, by simpa using hj, ?_⟩
        rw [hr]; congr 1; omega

theorem oldestIdx_spec (l : List Visit) (h : l ≠ []) :
    ∃ w, l[oldestIdx l]? = some w ∧ ∀ x ∈ l, ¬ tsLt x.time w.time := by
  cases l with
  | nil => exact absurd rfl h
  | cons v rest =>
    have hred : oldestIdx (v :: rest) = (oldestScan rest 1 0 v.time).1 := rfl
    rw [hred]
    obtain ⟨hmin1, hmin2⟩ := oldestScan_min rest 1 0 v.time
    rcases oldestScan_at rest 1 0 v.time with he | ⟨j, w, hj, he⟩
    · refine ⟨v, by simp [he], ?_⟩
      intro x hx
      rcases List.mem_cons.mp hx with rfl | hm
      · rw [he] at hmin1; exact hmin1
      · have := hmin2 x hm; rw [he] at this; exact this
    · refine ⟨w, ?_, ?_⟩
      · rw [he, Nat.add_comm 1 j]; simpa using hj
      · have hwt : (oldestScan rest 1 0 v.time).2 = w.time := by rw [he]
        intro x hx
        rcases List.mem_cons.mp hx with rfl | hm
        · rw [hwt] at hmin1; exact hmin1
        · have := hmin2 x hm; rw [hwt] at this; exact this

theorem oldestIdx_lt (l : List Visit) (h : l ≠ []) : oldestIdx l < l.length := by
  obtain ⟨w, hw, -⟩ := oldestIdx_spec l h
  exact (List.getElem?_eq_some.mp hw).1

theorem eraseIdx_last : ∀ (l : List Visit), l.eraseIdx (l.length - 1) = l.dropLast := by
  intro l
  induction l with
  | nil => rfl
  | cons x xs ih =>
    cases xs with
    | nil => rfl
    | cons y ys =>
      have h1 : (x :: y :: ys).length - 1 = ((y :: ys).length - 1) + 1 := by
        simp
      rw [h1, List.eraseIdx_cons_succ, ih, List.dropLast_cons₂]

theorem set_last_dropLast_perm :
    ∀ (l : List Visit) (j : Nat), j + 1 < l.length →
    ((l.set j ((l.getLast?).getD default)).dropLast).Perm (l.eraseIdx j) := by
  intro l
  induction l with
  | nil => intro j h; simp at h
  | cons x xs ih =>
    intro j h
    cases xs with
    | nil => simp at h
    | cons y ys =>
      cases j with
      | zero =>
        have hne : (y :: ys) ≠ [] := by simp
        rw [List.getLast?_cons_cons, List.getLast?_eq_getLast _ hne]
        simp only [Option.getD_some, List.set_cons_zero, List.eraseIdx_cons_zero]
        rw [List.dropLast_cons₂]
        have hp := List.perm_append_singleton ((y :: ys).getLast hne) (y :: ys).dropLast
        rw [List.dropLast_append_getLast hne] at hp
        exact hp.symm
      | succ j' =>
        rw [List.getLast?_cons_cons, List.set_cons_succ, List.eraseIdx_cons_succ]
        have hlt : j' + 1 < (y :: ys).length := by simp at h ⊢; omega
        obtain ⟨a, as, hset⟩ : ∃ a as,
            (y :: ys).set j' ((y :: ys).getLast?.getD default) = a :: as := by
          cases j' with
          | zero => exact ⟨_, _, rfl⟩
          | succ k => exact ⟨_, _, rfl⟩
        rw [hset, List.dropLast_cons₂, ← hset]
        exact (ih j' hlt).cons x

theorem swapRemove_perm (l : List Visit) (j : Nat) (hj : j < l.length) :
    (swapRemove l j).Perm (l.eraseIdx j) := by
  unfold swapRemove
  by_cases h : j + 1 < l.length
  · rw [if_pos h]
    exact set_last_dropLast_perm l j h
  · rw [if_neg h]
    have hj1 : j = l.length - 1 := by omega
    rw [hj1, eraseIdx_last]

theorem swapRemove_length (l : List Visit) (j : Nat) :
    (swapRemove l j).length = l.length - 1 := by
  unfold swapRemove
  by_cases h : j + 1 < l.length
  · rw [if_pos h]; simp
  · rw [if_neg h]; simp

theorem evict_oldest_eq (u : UserVisits) (h : u.visits ≠ []) :
    evict_oldest u = some { u with visits := swapRemove u.visits (oldestIdx u.visits) } := by
  unfold evict_oldest
  cases hv : u.visits with
  | nil => exact absurd hv h
  | cons v rest => rfl

/-! ### Claims -/

/-- Claim C3 (code_bug evidence): with `max_visits = 0`, the very first
`AddVisit` for a fresh user reaches the eviction block with an empty
visits array (`0 >= 0` at main.go line 443) and reads `visits[0]` out of
bounds (line 446) — undefined behaviour, so the capacity invariant
cannot be maintained at `max_visits = 0`.  Every allocation succeeds on
this run (empty oracle). -/
theorem c3_capacity_invariant_undefined_at_zero :
    VisitManagerAddVisit ⟨[], 10, 0, []⟩ 1 101 [104] [116] ⟨100, 0⟩ [] = none := by
  rfl

theorem addVisit_found (m : VisitManager) (uid vid i : Nat) (u : UserVisits)
    (url text : List Nat) (now : Timespec) (σ : List Bool)
    (hfind : find_user m.users uid = some (i, u)) :
    VisitManagerAddVisit m uid vid url text now σ
      = addVisitCore m i u vid url text now σ := by
  unfold VisitManagerAddVisit
  rw [hfind]

/-- Claim C6: if user `uid`'s record already holds a visit with id
`vid`, `AddVisit` with any `url'`/`text'` (also ones differing from the
stored values) returns `true` and leaves the whole manager — in
particular that user's visit count and the stored url, text and
timestamp of the existing visit — unchanged (main.go lines 428-434). -/
theorem c6_duplicate_add_is_noop (m : VisitManager) (uid vid i : Nat)
    (u : UserVisits) (url' text' : List Nat) (now : Timespec) (σ : List Bool)
    (hfind : find_user m.users uid = some (i, u))
    (hdup : u.visits.any (fun v => v.visit_id == vid) = true) :
    VisitManagerAddVisit m uid vid url' text' now σ = some (m, true) := by
  rw [addVisit_found m uid vid i u url' text' now σ hfind]
  unfold addVisitCore
  rw [if_pos hdup]

/-- Witness for C6 at a concrete manager: user 7 already has visit 101
with url `[97]`, text `[98]`, time `(5,0)`; re-adding id 101 with other
url/text succeeds and changes nothing. -/
theorem c6_duplicate_add_is_noop_witness :
    VisitManagerAddVisit ⟨[⟨7, [⟨101, [97], [98], ⟨5, 0⟩⟩], 5⟩], 10, 5, []⟩
        7 101 [120] [121] ⟨9, 9⟩ []
      = some (⟨[⟨7, [⟨101, [97], [98], ⟨5, 0⟩⟩], 5⟩], 10, 5, []⟩, true) :=
  c6_duplicate_add_is_noop _ 7 101 0 ⟨7, [⟨101, [97], [98], ⟨5, 0⟩⟩], 5⟩
    [120] [121] ⟨9, 9⟩ [] (by decide) (by decide)

/-- Claim C9 (code_bug evidence): a 16-byte file declaring one user and
ending there (stored bound 7, user count 1, then EOF) fails inside the
user loop before the first slot is stored; the cleanup at main.go lines
330-342 then walks the uninitialized `users[0]` slot, testing and
freeing an indeterminate pointer — undefined behaviour, so `Create`
does not fall back to a fresh manager for this malformed file.  (A
three-byte file, by contrast, fails before the loop and does reach the
clean fallback.) -/
theorem c9_create_load_cleanup_undefined :
    deserialize_manager (encW 7 ++ encW 1) [112] 4 = none
    ∧ VisitManagerCreate (some (encW 7 ++ encW 1)) [112] 4 = none
    ∧ VisitManagerCreate (some [1, 2, 3]) [112] 4 = some ⟨[], 10, 4, [112]⟩ := by
  exact ⟨by decide, by decide, by decide⟩

theorem getRecent_found (shuffle : List Visit → List Visit) (m : VisitManager)
    (uid i : Nat) (u : UserVisits)
    (h : find_user m.users uid = some (i, u)) :
    VisitManagerGetRecentVisits shuffle m uid
      = (setUser m i { u with visits := sort_visits shuffle u.visits },
         some (sort_visits shuffle u.visits), u.visits.length) := by
  unfold VisitManagerGetRecentVisits
  rw [h]

theorem clear_found (m : VisitManager) (uid i : Nat) (u : UserVisits)
    (h : find_user m.users uid = some (i, u)) :
    VisitManagerClear m uid = setUser m i { u with visits := [] } := by
  unfold VisitManagerClear
  rw [h]

/-- Claim C10: `GetRecentVisits` distinguishes unknown users (NULL
result pointer, count 0) from known users with an empty record (non-NULL
pointer, count 0); `Clear` resets a known user's record to empty but
never removes it, so the distinction persists.  Holds for every outcome
`shuffle` of the in-place sort. -/
theorem c10_unknown_vs_empty_user (m : VisitManager) (uid : Nat)
    (shuffle : List Visit → List Visit) :
    (find_user m.users uid = none →
       VisitManagerGetRecentVisits shuffle m uid = (m, none, 0))
    ∧ (∀ i u, find_user m.users uid = some (i, u) →
         ∃ l, (VisitManagerGetRecentVisits shuffle m uid).2.1 = some l)
    ∧ (∀ i u, find_user m.users uid = some (i, u) → u.visits = [] →
         VisitManagerGetRecentVisits shuffle m uid = (m, some [], 0))
    ∧ (∀ i u, find_user m.users uid = some (i, u) →
         VisitManagerClear m uid = setUser m i { u with visits := [] }
         ∧ find_user (VisitManagerClear m uid).users uid
             = some (i, { u with visits := [] })) := by
  refine ⟨?_, ?_, ?_, ?_⟩
  · intro h
    unfold VisitManagerGetRecentVisits
    rw [h]
  · intro i u h
    rw [getRecent_found shuffle m uid i u h]
    exact ⟨_, rfl⟩
  · intro i u h hv
    rw [getRecent_found shuffle m uid i u h]
    have hu : { u with visits := sort_visits shuffle u.visits } = u := by
      cases u with
      | mk uid' vs cap => simp only at hv; subst hv; rfl
    have hget : m.users[i]? = some u := (find_user_mem m.users uid i u h).1
    rw [hu]
    unfold setUser
    rw [set_self m.users i u hget, hv]
    rfl
  · intro i u h
    have hid : ({ u with visits := [] } : UserVisits).user_id = uid := by
      simpa using (find_user_mem m.users uid i u h).2
    refine ⟨clear_found m uid i u h, ?_⟩
    rw [clear_found m uid i u h]
    unfold setUser
    exact find_user_set m.users uid i u _ h hid

/-- Witness for C10: a manager whose only user, 7, has an empty record.
Unknown user 9 yields the NULL result with count 0; known user 7 yields
a non-NULL empty sequence with count 0; after `Clear` the record of 7 is
still found. -/
theorem c10_unknown_vs_empty_user_witness :
    VisitManagerGetRecentVisits (fun l => l) ⟨[⟨7, [], 5⟩], 10, 5, []⟩ 9
        = (⟨[⟨7, [], 5⟩], 10, 5, []⟩, none, 0)
    ∧ VisitManagerGetRecentVisits (fun l => l) ⟨[⟨7, [], 5⟩], 10, 5, []⟩ 7
        = (⟨[⟨7, [], 5⟩], 10, 5, []⟩, some [], 0)
    ∧ find_user (VisitManagerClear ⟨[⟨7, [], 5⟩], 10, 5, []⟩ 7).users 7
        = some (0, ⟨7, [], 5⟩) :=
  ⟨(c10_unknown_vs_empty_user ⟨[⟨7, [], 5⟩], 10, 5, []⟩ 9 (fun l => l)).1 (by decide),
   (c10_unknown_vs_empty_user ⟨[⟨7, [], 5⟩], 10, 5, []⟩ 7 (fun l => l)).2.2.1
     0 ⟨7, [], 5⟩ (by decide) rfl,
   ((c10_unknown_vs_empty_user ⟨[⟨7, [], 5⟩], 10, 5, []⟩ 7 (fun l => l)).2.2.2
     0 ⟨7, [], 5⟩ (by decide)).2⟩

/-- Counterexample to Claim C8 as stated: on a fresh manager (capacity
bound 5, no users) the `malloc` inside `create_visit` fails (oracle
`[true, true, false]`: the two `create_user` allocations succeed, the
third attempt fails).  `AddVisit` returns `false`, yet the previously
unknown user 1 is now a known user with an empty record — the new user
record appended at main.go line 425 is not removed on the later failure
at lines 437-440. -/
theorem c8_alloc_failure_leaves_user_known :
    VisitManagerAddVisit ⟨[], 10, 5, []⟩ 1 101 [104] [116] ⟨100, 0⟩
        [true, true, false]
      = some (⟨[⟨1, [], 5⟩], 10, 5, []⟩, false)
    ∧ find_user [(⟨1, [], 5⟩ : UserVisits)] 1 = some (0, ⟨1, [], 5⟩) := by
  exact ⟨rfl, rfl⟩

theorem addVisitCore_false (m : VisitManager) (i : Nat) (u : UserVisits)
    (vid : Nat) (url text : List Nat) (now : Timespec) (σ : List Bool)
    (m' : VisitManager)
    (hget : m.users[i]? = some u)
    (hcap : u.visits.length ≤ u.capacity)
    (hres : addVisitCore m i u vid url text now σ = some (m', false)) :
    m' = m := by
  unfold addVisitCore at hres
  split at hres
  · simp at hres
  · split at hres
    · simp only [Option.some.injEq, Prod.mk.injEq] at hres
      exact hres.1.symm
    · split at hres
      · cases hres
      · rename_i u1 hu1
        split at hres
        · rename_i hrsz
          split at hres
          · -- realloc failed: state is setUser m i u1 and u1 must be u
            simp only [Option.some.injEq, Prod.mk.injEq] at hres
            have hu1u : u1 = u := by
              split at hu1
              · rename_i hfull
                cases hv : u.visits with
                | nil => unfold evict_oldest at hu1; rw [hv] at hu1; simp at hu1
                | cons x xs =>
                  have hne : u.visits ≠ [] := by rw [hv]; simp
                  rw [evict_oldest_eq u hne] at hu1
                  simp only [Option.some.injEq] at hu1
                  subst hu1
                  exfalso
                  have h1 := swapRemove_length u.visits (oldestIdx u.visits)
                  simp only at hrsz
                  rw [h1] at hrsz
                  have : u.visits.length ≥ 1 := by rw [hv]; simp
                  omega
              · simp only [Option.some.injEq] at hu1
                exact hu1.symm
            rw [← hres.1, hu1u]
            unfold setUser
            rw [set_self m.users i u hget]
          · split at hres <;> simp at hres
        · simp at hres

theorem create_user_some (uid cap : Nat) (σ σ' : List Bool) (u : UserVisits)
    (h : create_user uid cap σ = (some u, σ')) : u = ⟨uid, [], cap⟩ := by
  unfold create_user at h
  split at h
  · simp at h
  · split at h
    · simp at h
    · simp only [Prod.mk.injEq, Option.some.injEq] at h
      exact h.1.symm

theorem addVisit_notfound (m : VisitManager) (uid vid : Nat) (url text : List Nat)
    (now : Timespec) (σ : List Bool) (hfind : find_user m.users uid = none) :
    VisitManagerAddVisit m uid vid url text now σ =
      match (if m.user_capacity ≤ m.users.length then
               match takeAlloc σ with
               | (false, σ') => (none, σ')
               | (true, σ') =>
                 (some { m with user_capacity := m.user_capacity * 2 }, σ')
             else (some m, σ) : Option VisitManager × List Bool) with
      | (none, _) => some (m, false)
      | (some m1, σ1) =>
        match create_user uid m1.max_visits σ1 with
        | (none, _) => some (m1, false)
        | (some u, σ2) =>
          addVisitCore { m1 with users := m1.users ++ [u] } m1.users.length u
            vid url text now σ2 := by
  unfold VisitManagerAddVisit
  rw [hfind]

/-- Claim C8 (amended): when `AddVisit` returns `false` because an
allocation failed, no visit is added and every previously known user's
record is untouched — but the user set is not always unchanged: if the
failure strikes after a new user record was created and appended
(main.go line 425), that empty record stays, so a previously unknown
user can become known.  The only possible change to the user array is
the appended empty record with the manager's capacity bound.
(`hwf`: every record's count is within its allocated capacity, as
maintained by every constructor of the state.) -/
theorem c8_amended_alloc_failure_frame (m : VisitManager) (uid vid : Nat)
    (url text : List Nat) (now : Timespec) (σ : List Bool) (m' : VisitManager)
    (hwf : ∀ u ∈ m.users, u.visits.length ≤ u.capacity)
    (hres : VisitManagerAddVisit m uid vid url text now σ = some (m', false)) :
    m'.users = m.users ∨ m'.users = m.users ++ [⟨uid, [], m.max_visits⟩] := by
  cases hfind : find_user m.users uid with
  | some p =>
    obtain ⟨i, u⟩ := p
    rw [addVisit_found m uid vid i u url text now σ hfind] at hres
    have hget := (find_user_mem m.users uid i u hfind).1
    have hmem : u ∈ m.users := List.getElem?_mem hget
    left
    rw [addVisitCore_false m i u vid url text now σ m' hget (hwf u hmem) hres]
  | none =>
    rw [addVisit_notfound m uid vid url text now σ hfind] at hres
    split at hres
    · -- users-array realloc failed: nothing changed
      simp only [Option.some.injEq, Prod.mk.injEq] at hres
      left; rw [← hres.1]
    · rename_i m1 σ1 heq
      have hm1 : m1.users = m.users ∧ m1.max_visits = m.max_visits := by
        split at heq
        · split at heq
          · simp at heq
          · simp only [Prod.mk.injEq, Option.some.injEq] at heq
            rw [← heq.1]
            exact ⟨rfl, rfl⟩
        · simp only [Prod.mk.injEq, Option.some.injEq] at heq
          rw [← heq.1]
          exact ⟨rfl, rfl⟩
      split at hres
      · -- create_user failed: the manager (possibly regrown) keeps its users
        simp only [Option.some.injEq, Prod.mk.injEq] at hres
        left; rw [← hres.1, hm1.1]
      · rename_i u σ2 hcu
        have hu : u = ⟨uid, [], m1.max_visits⟩ := create_user_some uid m1.max_visits σ1 σ2 u hcu
        have hget : ({ m1 with users := m1.users ++ [u] } : VisitManager).users[m1.users.length]?
            = some u := by
          simp only
          exact List.getElem?_concat_length m1.users u
        have hcap : u.visits.length ≤ u.capacity := by rw [hu]; simp
        have := addVisitCore_false { m1 with users := m1.users ++ [u] }
          m1.users.length u vid url text now σ2 m' hget hcap hres
        right
        rw [this]
        simp only
        rw [hm1.1, hu, hm1.2]

/-- Witness for the amended C8 at the counterexample input: the failed
call leaves the user array equal to the old array plus one empty record
for user 1. -/
theorem c8_amended_alloc_failure_frame_witness :
    (⟨[⟨1, [], 5⟩], 10, 5, []⟩ : VisitManager).users = ([] : List UserVisits)
    ∨ (⟨[⟨1, [], 5⟩], 10, 5, []⟩ : VisitManager).users
        = ([] : List UserVisits) ++ [⟨1, [], (5 : Nat)⟩] :=
  c8_amended_alloc_failure_frame ⟨[], 10, 5, []⟩ 1 101 [104] [116] ⟨100, 0⟩
    [true, true, false] ⟨[⟨1, [], 5⟩], 10, 5, []⟩ (by simp) (by decide)

/-- Claim C2: an `AddVisit` on a known user whose record is at or above
the capacity bound (and non-empty), with a fresh visit id, evicts a
visit with minimal `(tv_sec, tv_nsec)` timestamp by moving the last live
slot into its place, then appends the new visit; as a set, the result is
the old record minus that oldest visit plus the new one (main.go lines
443-492; empty oracle = all allocations succeed; `hcap` is the
count-within-capacity invariant of every reachable record). -/
theorem c2_addvisit_evicts_oldest (m : VisitManager) (uid vid i : Nat)
    (u : UserVisits) (url text : List Nat) (now : Timespec)
    (hfind : find_user m.users uid = some (i, u))
    (hnew : u.visits.any (fun v => v.visit_id == vid) = false)
    (hfull : m.max_visits ≤ u.visits.length)
    (hne : u.visits ≠ [])
    (hcap : u.visits.length ≤ u.capacity) :
    VisitManagerAddVisit m uid vid url text now []
        = some (setUser m i
            { u with visits := swapRemove u.visits (oldestIdx u.visits)
                                ++ [⟨vid, url, text, now⟩] }, true)
    ∧ (∃ w, u.visits[oldestIdx u.visits]? = some w
          ∧ ∀ x ∈ u.visits, ¬ tsLt x.time w.time)
    ∧ (swapRemove u.visits (oldestIdx u.visits) ++ [(⟨vid, url, text, now⟩ : Visit)]).Perm
        ((⟨vid, url, text, now⟩ : Visit) :: u.visits.eraseIdx (oldestIdx u.visits)) := by
  have hlen1 : 1 ≤ u.visits.length := by
    cases hv : u.visits with
    | nil => exact absurd hv hne
    | cons a l => simp
  refine ⟨?_, oldestIdx_spec u.visits hne, ?_⟩
  · rw [addVisit_found m uid vid i u url text now [] hfind]
    unfold addVisitCore
    rw [if_neg (by simp [hnew])]
    have hcv : create_visit vid url text now []
        = (some (⟨vid, url, text, now⟩ : Visit), ([] : List Bool)) := rfl
    have hsr := swapRemove_length u.visits (oldestIdx u.visits)
    simp only [hcv, if_pos hfull, evict_oldest_eq u hne]
    rw [if_neg (by rw [hsr]; omega)]
  · have hperm := swapRemove_perm u.visits (oldestIdx u.visits)
      (oldestIdx_lt u.visits hne)
    refine (hperm.append_right _).trans ?_
    exact List.perm_append_singleton _ _

/-- Witness for C2: user 7 holds visits 1 (time 5s) and 2 (time 3s) at
capacity bound 2; adding visit 9 evicts the oldest (id 2) and appends. -/
theorem c2_addvisit_evicts_oldest_witness :
    VisitManagerAddVisit ⟨[⟨7, [⟨1, [], [], ⟨5, 0⟩⟩, ⟨2, [], [], ⟨3, 0⟩⟩], 2⟩], 10, 2, []⟩
        7 9 [97] [98] ⟨10, 0⟩ []
        = some (setUser ⟨[⟨7, [⟨1, [], [], ⟨5, 0⟩⟩, ⟨2, [], [], ⟨3, 0⟩⟩], 2⟩], 10, 2, []⟩ 0
            { (⟨7, [⟨1, [], [], ⟨5, 0⟩⟩, ⟨2, [], [], ⟨3, 0⟩⟩], 2⟩ : UserVisits) with
                visits := swapRemove [⟨1, [], [], ⟨5, 0⟩⟩, ⟨2, [], [], ⟨3, 0⟩⟩]
                    (oldestIdx [⟨1, [], [], ⟨5, 0⟩⟩, ⟨2, [], [], ⟨3, 0⟩⟩])
                  ++ [⟨9, [97], [98], ⟨10, 0⟩⟩] }, true)
    ∧ (∃ w, [(⟨1, [], [], ⟨5, 0⟩⟩ : Visit), ⟨2, [], [], ⟨3, 0⟩⟩][oldestIdx [⟨1, [], [], ⟨5, 0⟩⟩, ⟨2, [], [], ⟨3, 0⟩⟩]]? = some w
          ∧ ∀ x ∈ [(⟨1, [], [], ⟨5, 0⟩⟩ : Visit), ⟨2, [], [], ⟨3, 0⟩⟩], ¬ tsLt x.time w.time)
    ∧ (swapRemove [⟨1, [], [], ⟨5, 0⟩⟩, ⟨2, [], [], ⟨3, 0⟩⟩]
          (oldestIdx [⟨1, [], [], ⟨5, 0⟩⟩, ⟨2, [], [], ⟨3, 0⟩⟩])
        ++ [(⟨9, [97], [98], ⟨10, 0⟩⟩ : Visit)]).Perm
        ((⟨9, [97], [98], ⟨10, 0⟩⟩ : Visit)
          :: [(⟨1, [], [], ⟨5, 0⟩⟩ : Visit), ⟨2, [], [], ⟨3, 0⟩⟩].eraseIdx
               (oldestIdx [⟨1, [], [], ⟨5, 0⟩⟩, ⟨2, [], [], ⟨3, 0⟩⟩])) :=
  c2_addvisit_evicts_oldest ⟨[⟨7, [⟨1, [], [], ⟨5, 0⟩⟩, ⟨2, [], [], ⟨3, 0⟩⟩], 2⟩], 10, 2, []⟩
    7 9 0 ⟨7, [⟨1, [], [], ⟨5, 0⟩⟩, ⟨2, [], [], ⟨3, 0⟩⟩], 2⟩ [97] [98] ⟨10, 0⟩
    (by decide) (by decide) (by decide) (by decide) (by decide)

theorem findVisitIdx_none : ∀ (l : List Visit) (id : Nat),
    findVisitIdx l id = none → ∀ v ∈ l, v.visit_id ≠ id := by
  intro l
  induction l with
  | nil => intro id _ v hv; simp at hv
  | cons x xs ih =>
    intro id h v hv
    unfold findVisitIdx at h
    by_cases hc : (x.visit_id == id) = true
    · rw [if_pos hc] at h; cases h
    · rw [if_neg hc] at h
      rcases List.mem_cons.mp hv with rfl | hm
      · simpa using hc
      · cases hfx : findVisitIdx xs id with
        | none => exact ih id hfx v hm
        | some j => rw [hfx] at h; cases h

theorem findVisitIdx_some : ∀ (l : List Visit) (id j : Nat),
    findVisitIdx l id = some j →
    ∃ v, l[j]? = some v ∧ v.visit_id = id := by
  intro l
  induction l with
  | nil => intro id j h; cases h
  | cons x xs ih =>
    intro id j h
    unfold findVisitIdx at h
    by_cases hc : (x.visit_id == id) = true
    · rw [if_pos hc] at h
      simp only [Option.some.injEq] at h
      subst h
      exact ⟨x, by simp, by simpa using hc⟩
    · rw [if_neg hc] at h
      cases hfx : findVisitIdx xs id with
      | none => rw [hfx] at h; cases h
      | some j' =>
        rw [hfx] at h
        simp only [Option.map, Option.bind, Option.some.injEq] at h
        subst h
        obtain ⟨v, hg, hid⟩ := ih id j' hfx
        exact ⟨v, by simpa using hg, hid⟩

theorem eraseIdx_eq_filter_of_nodup : ∀ (l : List Visit) (j : Nat) (v : Visit),
    l[j]? = some v → (l.map (fun x => x.visit_id)).Nodup →
    l.eraseIdx j = l.filter (fun x => !(x.visit_id == v.visit_id)) := by
  intro l
  induction l with
  | nil => intro j v h; cases j <;> cases h
  | cons x xs ih =>
    intro j v hj hnd
    simp only [List.map_cons, List.nodup_cons] at hnd
    obtain ⟨hx, hxs⟩ := hnd
    cases j with
    | zero =>
      simp only [List.getElem?_cons_zero, Option.some.injEq] at hj
      subst hj
      rw [List.eraseIdx_cons_zero,
        List.filter_cons_of_neg (by simp)]
      refine (List.filter_eq_self.mpr ?_).symm
      intro y hy
      have hmem : y.visit_id ∈ xs.map (fun z => z.visit_id) :=
        List.mem_map_of_mem _ hy
      simp only [Bool.not_eq_true', beq_eq_false_iff_ne]
      intro hcon
      exact hx (hcon ▸ hmem)
    | succ j' =>
      rw [List.getElem?_cons_succ] at hj
      have hv : v ∈ xs := List.getElem?_mem hj
      have hvid : v.visit_id ∈ xs.map (fun z => z.visit_id) :=
        List.mem_map_of_mem _ hv
      rw [List.eraseIdx_cons_succ,
        List.filter_cons_of_pos
          (by simp only [Bool.not_eq_true', beq_eq_false_iff_ne]
              intro hcon
              exact hx (hcon ▸ hvid)),
        ih j' v hj hxs]

theorem removeFirst_none (l : List Visit) (id : Nat)
    (h : removeFirst l id = none) : ∀ v ∈ l, v.visit_id ≠ id := by
  unfold removeFirst at h
  cases hf : findVisitIdx l id with
  | none => exact findVisitIdx_none l id hf
  | some j => rw [hf] at h; cases h

theorem removeFirst_some_exists (l : List Visit) (id : Nat) (l' : List Visit)
    (h : removeFirst l id = some l') : ∃ v ∈ l, v.visit_id = id := by
  unfold removeFirst at h
  cases hf : findVisitIdx l id with
  | none => rw [hf] at h; cases h
  | some j =>
    obtain ⟨v, hg, hid⟩ := findVisitIdx_some l id j hf
    exact ⟨v, List.getElem?_mem hg, hid⟩

theorem removeFirst_some_perm (l : List Visit) (id : Nat) (l' : List Visit)
    (hnd : (l.map (fun x => x.visit_id)).Nodup)
    (h : removeFirst l id = some l') :
    l'.Perm (l.filter (fun x => !(x.visit_id == id))) := by
  unfold removeFirst at h
  cases hf : findVisitIdx l id with
  | none => rw [hf] at h; cases h
  | some j =>
    rw [hf] at h
    simp only [Option.some.injEq] at h
    subst h
    obtain ⟨v, hg, hid⟩ := findVisitIdx_some l id j hf
    have hjlt : j < l.length := (List.getElem?_eq_some.mp hg).1
    have hperm := swapRemove_perm l j hjlt
    rw [eraseIdx_eq_filter_of_nodup l j v hg hnd, hid] at hperm
    exact hperm

theorem deleteLoop_flag : ∀ (ids : List Nat) (l : List Visit),
    (deleteLoop l ids).2 = true ↔ ∃ id ∈ ids, ∃ v ∈ l, v.visit_id = id := by
  intro ids
  induction ids with
  | nil => intro l; simp [deleteLoop]
  | cons id rest ih =>
    intro l
    unfold deleteLoop
    cases hrf : removeFirst l id with
    | none =>
      rw [ih l]
      constructor
      · rintro ⟨id', hid', hv⟩
        exact ⟨id', List.mem_cons_of_mem _ hid', hv⟩
      · rintro ⟨id', hid', v, hv, hvid⟩
        rcases List.mem_cons.mp hid' with rfl | hm
        · exact absurd hvid (removeFirst_none l _ hrf v hv)
        · exact ⟨id', hm, v, hv, hvid⟩
    | some l' =>
      constructor
      · intro _
        obtain ⟨v, hv, hvid⟩ := removeFirst_some_exists l id l' hrf
        exact ⟨id, List.mem_cons_self _ _, v, hv, hvid⟩
      · intro _; rfl

theorem deleteLoop_unchanged : ∀ (ids : List Nat) (l : List Visit),
    (deleteLoop l ids).2 = false → (deleteLoop l ids).1 = l := by
  intro ids
  induction ids with
  | nil => intro l _; rfl
  | cons id rest ih =>
    intro l h
    cases hrf : removeFirst l id with
    | none =>
      unfold deleteLoop at h ⊢
      rw [hrf] at h ⊢
      exact ih l h
    | some l' =>
      unfold deleteLoop at h
      rw [hrf] at h
      simp at h

theorem nodup_of_perm_filter (l l' : List Visit) (p : Visit → Bool)
    (hnd : (l.map (fun x => x.visit_id)).Nodup)
    (hp : l'.Perm (l.filter p)) :
    (l'.map (fun x => x.visit_id)).Nodup := by
  have hsub : ((l.filter p).map (fun x => x.visit_id)).Sublist
      (l.map (fun x => x.visit_id)) := (List.filter_sublist l).map _
  exact ((hp.map _).nodup_iff).mpr (List.Nodup.sublist hsub hnd)

theorem deleteLoop_perm : ∀ (ids : List Nat) (l : List Visit),
    (l.map (fun x => x.visit_id)).Nodup →
    (deleteLoop l ids).1.Perm
      (l.filter (fun v => !(ids.contains v.visit_id))) := by
  intro ids
  induction ids with
  | nil =>
    intro l _
    have hf : l.filter (fun v => !(([] : List Nat).contains v.visit_id)) = l :=
      List.filter_eq_self.mpr (fun a _ => rfl)
    rw [hf]
    exact List.Perm.refl l
  | cons id rest ih =>
    intro l hnd
    unfold deleteLoop
    cases hrf : removeFirst l id with
    | none =>
      have hne := removeFirst_none l id hrf
      have heq : l.filter (fun v => !((id :: rest).contains v.visit_id))
          = l.filter (fun v => !(rest.contains v.visit_id)) := by
        apply List.filter_congr
        intro x hx
        have hx' : x.visit_id ≠ id := hne x hx
        simp [List.contains_cons, hx']
      rw [heq]
      exact ih l hnd
    | some l' =>
      have h1 := removeFirst_some_perm l id l' hnd hrf
      have hnd' := nodup_of_perm_filter l l' _ hnd h1
      have h2 := ih l' hnd'
      have heq : (l.filter (fun x => !(x.visit_id == id))).filter
            (fun v => !(rest.contains v.visit_id))
          = l.filter (fun v => !((id :: rest).contains v.visit_id)) := by
        rw [List.filter_filter]
        apply List.filter_congr
        intro x hx
        by_cases hxi : x.visit_id = id <;>
          simp [List.contains_cons, Bool.not_or, Bool.and_comm, hxi]
      have h3 := List.Perm.filter (fun v => !(rest.contains v.visit_id)) h1
      rw [heq] at h3
      exact h2.trans h3

theorem delete_empty_ids (m : VisitManager) (uid : Nat) :
    VisitManagerDelete (some m) uid (some []) = (some m, false) := rfl

theorem delete_some_some (m : VisitManager) (uid : Nat) (ids : List Nat) :
    VisitManagerDelete (some m) uid (some ids)
      = if (ids.length == 0) = true then (some m, false)
        else match find_user m.users uid with
          | none => (some m, false)
          | some (i, u) =>
            match deleteLoop u.visits ids with
            | (l', true) => (some (setUser m i { u with visits := l' }), true)
            | (_, false) => (some m, false) := rfl

theorem delete_notfound (m : VisitManager) (uid : Nat) (ids : List Nat)
    (hne : ids ≠ []) (h : find_user m.users uid = none) :
    VisitManagerDelete (some m) uid (some ids) = (some m, false) := by
  rw [delete_some_some]
  rw [if_neg (by simpa [List.length_eq_zero] using hne)]
  rw [h]

theorem delete_found (m : VisitManager) (uid : Nat) (ids : List Nat)
    (i : Nat) (u : UserVisits) (hne : ids ≠ [])
    (hf : find_user m.users uid = some (i, u)) :
    VisitManagerDelete (some m) uid (some ids)
      = match deleteLoop u.visits ids with
        | (l', true) => (some (setUser m i { u with visits := l' }), true)
        | (_, false) => (some m, false) := by
  rw [delete_some_some]
  rw [if_neg (by simpa [List.length_eq_zero] using hne)]
  rw [hf]

/-- Claim C7: `Delete` returns `true` exactly when the manager and id
list are present (non-NULL), the list is non-empty, the user is known
and at least one requested id matches a stored visit; on `true` exactly
the matching visits are removed (under the per-user unique-id
invariant), on `false` — including the NULL-argument, empty-list,
unknown-user and no-match cases — the state is unchanged (main.go lines
538-582). -/
theorem c7_delete_semantics (m : VisitManager) (uid : Nat) (ids : List Nat) :
    VisitManagerDelete none uid (some ids) = (none, false)
    ∧ VisitManagerDelete (some m) uid none = (some m, false)
    ∧ ((VisitManagerDelete (some m) uid (some ids)).2 = true ↔
        ids ≠ [] ∧ ∃ i u, find_user m.users uid = some (i, u)
          ∧ ∃ id ∈ ids, ∃ v ∈ u.visits, v.visit_id = id)
    ∧ ((VisitManagerDelete (some m) uid (some ids)).2 = false →
        (VisitManagerDelete (some m) uid (some ids)).1 = some m)
    ∧ (∀ i u, find_user m.users uid = some (i, u) →
        (u.visits.map (fun v => v.visit_id)).Nodup →
        (VisitManagerDelete (some m) uid (some ids)).2 = true →
        ∃ l', VisitManagerDelete (some m) uid (some ids)
                = (some (setUser m i { u with visits := l' }), true)
          ∧ l'.Perm (u.visits.filter (fun v => !(ids.contains v.visit_id)))) := by
  refine ⟨rfl, rfl, ?_, ?_, ?_⟩
  · -- the flag is true iff some id matches
    by_cases hids : ids = []
    · subst hids
      rw [delete_empty_ids]
      simp
    · cases hfu : find_user m.users uid with
      | none =>
        rw [delete_notfound m uid ids hids hfu]
        simp only [Bool.false_eq_true, false_iff, not_and]
        intro _ h
        obtain ⟨i, u, hf, -⟩ := h
        cases hf
      | some p =>
        obtain ⟨i, u⟩ := p
        rw [delete_found m uid ids i u hids hfu]
        cases hdl : deleteLoop u.visits ids with
        | mk l' b =>
          cases b with
          | true =>
            constructor
            · intro _
              exact ⟨hids, i, u, rfl,
                (deleteLoop_flag ids u.visits).mp (by rw [hdl])⟩
            · intro _
              rfl
          | false =>
            simp only [Bool.false_eq_true, false_iff, not_and]
            intro _ h
            obtain ⟨i', u', hf', hmatch⟩ := h
            simp only [Option.some.injEq, Prod.mk.injEq] at hf'
            obtain ⟨rfl, rfl⟩ := hf'
            have hflag := (deleteLoop_flag ids u.visits).mpr hmatch
            rw [hdl] at hflag
            cases hflag
  · -- a false return leaves the state unchanged
    by_cases hids : ids = []
    · subst hids; intro _; rw [delete_empty_ids]
    · cases hfu : find_user m.users uid with
      | none => intro _; rw [delete_notfound m uid ids hids hfu]
      | some p =>
        obtain ⟨i, u⟩ := p
        rw [delete_found m uid ids i u hids hfu]
        cases hdl : deleteLoop u.visits ids with
        | mk l' b =>
          cases b with
          | true => intro hfalse; cases hfalse
          | false => intro _; rfl
  · -- a true return removes exactly the matching visits
    intro i u hfu hnd htrue
    by_cases hids : ids = []
    · subst hids; rw [delete_empty_ids] at htrue; cases htrue
    · rw [delete_found m uid ids i u hids hfu] at htrue ⊢
      cases hdl : deleteLoop u.visits ids with
      | mk l' b =>
        cases b with
        | false =>
          rw [hdl] at htrue
          exact Bool.noConfusion (show false = true from htrue)
        | true =>
          refine ⟨l', rfl, ?_⟩
          have hp := deleteLoop_perm ids u.visits hnd
          rw [hdl] at hp
          exact hp

/-- Witness for C7: user 6 holds visits 601..605; deleting the batch
[602, 604] returns true and leaves, as a set, exactly the visits whose
ids were not requested. -/
theorem c7_delete_semantics_witness :
    ∃ l', VisitManagerDelete
            (some ⟨[⟨6, [⟨601, [], [], ⟨1, 0⟩⟩, ⟨602, [], [], ⟨2, 0⟩⟩,
                        ⟨603, [], [], ⟨3, 0⟩⟩, ⟨604, [], [], ⟨4, 0⟩⟩,
                        ⟨605, [], [], ⟨5, 0⟩⟩], 10⟩], 10, 10, []⟩)
            6 (some [602, 604])
        = (some (setUser ⟨[⟨6, [⟨601, [], [], ⟨1, 0⟩⟩, ⟨602, [], [], ⟨2, 0⟩⟩,
                        ⟨603, [], [], ⟨3, 0⟩⟩, ⟨604, [], [], ⟨4, 0⟩⟩,
                        ⟨605, [], [], ⟨5, 0⟩⟩], 10⟩], 10, 10, []⟩ 0
            { (⟨6, [⟨601, [], [], ⟨1, 0⟩⟩, ⟨602, [], [], ⟨2, 0⟩⟩,
                        ⟨603, [], [], ⟨3, 0⟩⟩, ⟨604, [], [], ⟨4, 0⟩⟩,
                        ⟨605, [], [], ⟨5, 0⟩⟩], 10⟩ : UserVisits) with visits := l' }), true)
      ∧ l'.Perm ([⟨601, [], [], ⟨1, 0⟩⟩, ⟨602, [], [], ⟨2, 0⟩⟩,
                        ⟨603, [], [], ⟨3, 0⟩⟩, ⟨604, [], [], ⟨4, 0⟩⟩,
                        (⟨605, [], [], ⟨5, 0⟩⟩ : Visit)].filter
            (fun v => !(([602, 604] : List Nat).contains v.visit_id))) :=
  (c7_delete_semantics ⟨[⟨6, [⟨601, [], [], ⟨1, 0⟩⟩, ⟨602, [], [], ⟨2, 0⟩⟩,
                        ⟨603, [], [], ⟨3, 0⟩⟩, ⟨604, [], [], ⟨4, 0⟩⟩,
                        ⟨605, [], [], ⟨5, 0⟩⟩], 10⟩], 10, 10, []⟩ 6 [602, 604]).2.2.2.2
    0 ⟨6, [⟨601, [], [], ⟨1, 0⟩⟩, ⟨602, [], [], ⟨2, 0⟩⟩,
                        ⟨603, [], [], ⟨3, 0⟩⟩, ⟨604, [], [], ⟨4, 0⟩⟩,
                        ⟨605, [], [], ⟨5, 0⟩⟩], 10⟩
    (by decide) (by decide) (by decide)

theorem leBytes_length : ∀ (k n : Nat), (leBytes k n).length = k := by
  intro k
  induction k with
  | zero => intro n; rfl
  | succ k ih => intro n; simp [leBytes, ih]

theorem leVal_leBytes : ∀ (k n : Nat), leVal (leBytes k n) = n % 256 ^ k := by
  intro k
  induction k with
  | zero => intro n; simp [leBytes, leVal, Nat.mod_one]
  | succ k ih =>
    intro n
    simp only [leBytes, leVal, ih, Nat.mod_mod]
    rw [Nat.pow_succ', Nat.mod_mul]

theorem readBytes_exact (bs rest : List Nat) :
    readBytes bs.length (bs ++ rest) = some (bs, rest) := by
  unfold readBytes
  rw [if_pos (by simp), List.take_left' rfl, List.drop_left' rfl]

theorem readW_enc_mod (n : Nat) (rest : List Nat) :
    readW (encW n ++ rest) = some (n % 2 ^ 64, rest) := by
  unfold readW encW
  have h8 : (leBytes 8 n).length = 8 := leBytes_length 8 n
  have hre := readBytes_exact (leBytes 8 n) rest
  rw [h8] at hre
  rw [hre]
  show some (leVal (leBytes 8 n), rest) = some (n % 2 ^ 64, rest)
  rw [leVal_leBytes]
  norm_num

theorem readW_enc (n : Nat) (rest : List Nat) (h : n < 2 ^ 64) :
    readW (encW n ++ rest) = some (n, rest) := by
  rw [readW_enc_mod, Nat.mod_eq_of_lt h]

theorem readU32_enc (n : Nat) (rest : List Nat) (h : n < 2 ^ 32) :
    readU32 (encU32 n ++ rest) = some (n, rest) := by
  unfold readU32 encU32
  have h4 : (leBytes 4 n).length = 4 := leBytes_length 4 n
  have hre := readBytes_exact (leBytes 4 n) rest
  rw [h4] at hre
  rw [hre]
  show some (leVal (leBytes 4 n), rest) = some (n, rest)
  rw [leVal_leBytes]
  norm_num
  omega

theorem readBytes_str (xs tail : List Nat) :
    readBytes (xs.length + 1) (xs ++ 0 :: tail) = some (xs ++ [0], tail) := by
  have h : xs ++ 0 :: tail = (xs ++ [0]) ++ tail := by simp
  have hl : (xs ++ [0]).length = xs.length + 1 := by simp
  have hre := readBytes_exact (xs ++ [0]) tail
  rw [hl] at hre
  rw [h, hre]

theorem cstr_append_zero (xs : List Nat) (h : ∀ b ∈ xs, b ≠ 0) :
    cstr (xs ++ [0]) = xs := by
  unfold cstr
  induction xs with
  | nil => rfl
  | cons x rest ih =>
    have hx : x ≠ 0 := h x (List.mem_cons_self x rest)
    simp only [List.cons_append, List.takeWhile_cons]
    rw [if_pos (by simpa using hx)]
    rw [ih (fun b hb => h b (List.mem_cons_of_mem x hb))]

theorem parseVisit_serVisit (v : Visit) (rest : List Nat) (h : WfVisit v) :
    parseVisit (serVisit v ++ rest) = some (v, rest) := by
  obtain ⟨vid, url, text, t⟩ := v
  obtain ⟨sec, nsec⟩ := t
  obtain ⟨h1, h2, h3, h4, h5, h6, h7⟩ := h
  unfold parseVisit serVisit encTs
  simp only [List.append_assoc, List.singleton_append, List.cons_append,
    List.nil_append]
  simp only [readU32_enc _ _ h1, readW_enc _ _ h4, readBytes_str,
    readW_enc _ _ h5, readW_enc _ _ h6, readW_enc _ _ h7]
  rw [cstr_append_zero url (fun b hb => (h2 b hb).2),
    cstr_append_zero text (fun b hb => (h3 b hb).2)]

theorem parseVisits_enc : ∀ (vs : List Visit) (keep : Nat) (rest : List Nat),
    (∀ v ∈ vs, WfVisit v) →
    parseVisits vs.length keep ((vs.map serVisit).flatten ++ rest)
      = some (vs.take keep, rest) := by
  intro vs
  induction vs with
  | nil => intro keep rest _; simp [parseVisits]
  | cons v vs ih =>
    intro keep rest h
    have hv : WfVisit v := h v (List.mem_cons_self v vs)
    have hvs : ∀ w ∈ vs, WfVisit w := fun w hw => h w (List.mem_cons_of_mem v hw)
    simp only [List.length_cons, List.map_cons, List.flatten_cons,
      List.append_assoc]
    unfold parseVisits
    simp only [parseVisit_serVisit v _ hv, ih (keep - 1) rest hvs]
    cases keep with
    | zero => rfl
    | succ k => simp [List.take_succ_cons]

theorem parseUser_enc (r : Nat × List Visit) (maxVisits : Nat) (rest : List Nat)
    (h : WfRec r) :
    parseUser maxVisits (encodeUserRec r ++ rest)
      = .ok ⟨r.1, r.2.take maxVisits,
              if 0 < r.2.length then r.2.length else 10⟩ rest := by
  obtain ⟨uid, vs⟩ := r
  obtain ⟨h1, h2, h3⟩ := h
  unfold parseUser encodeUserRec
  simp only [List.append_assoc]
  simp only [readU32_enc _ _ h1, readW_enc _ _ h2, parseVisits_enc vs maxVisits rest h3]

theorem parseUsers_enc : ∀ (rs : List (Nat × List Visit)) (maxVisits : Nat)
    (rest : List Nat), (∀ r ∈ rs, WfRec r) →
    parseUsers maxVisits rs.length ((rs.map encodeUserRec).flatten ++ rest)
      = .ok (rs.map (fun r => ⟨r.1, r.2.take maxVisits,
              if 0 < r.2.length then r.2.length else 10⟩)) rest := by
  intro rs
  induction rs with
  | nil => intro maxVisits rest _; simp [parseUsers]
  | cons r rs ih =>
    intro maxVisits rest h
    have hr : WfRec r := h r (List.mem_cons_self r rs)
    have hrs : ∀ q ∈ rs, WfRec q := fun q hq => h q (List.mem_cons_of_mem r hq)
    simp only [List.length_cons, List.map_cons, List.flatten_cons,
      List.append_assoc]
    unfold parseUsers
    simp only [parseUser_enc r maxVisits _ hr, ih maxVisits rest hrs]

theorem deserialize_encodeFile (storedMax maxVisits : Nat) (path : List Nat)
    (rs : List (Nat × List Visit)) (hlen : rs.length < 2 ^ 64)
    (hwf : ∀ r ∈ rs, WfRec r) :
    deserialize_manager (encodeFile storedMax rs) path maxVisits
      = some (some ⟨rs.map (fun r => ⟨r.1, r.2.take maxVisits,
                if 0 < r.2.length then r.2.length else 10⟩),
              if 0 < rs.length then rs.length else 10, maxVisits, path⟩) := by
  unfold deserialize_manager encodeFile
  simp only [List.append_assoc]
  simp only [readW_enc_mod storedMax, readW_enc _ _ hlen]
  rw [show (rs.map encodeUserRec).flatten
      = (rs.map encodeUserRec).flatten ++ [] by simp]
  simp only [parseUsers_enc rs maxVisits [] hwf]

/-- Claim C5: decoding with a caller-supplied capacity ignores the
stored bound (`storedMax` is arbitrary and absent from the result) and,
for every user in the file, retains exactly the first `maxVisits` visits
in file order, reading and discarding the rest while staying aligned for
the following users (main.go lines 206-214 and 254-325). -/
theorem c5_decode_ignores_stored_cap (storedMax maxVisits : Nat)
    (path : List Nat) (rs : List (Nat × List Visit))
    (hlen : rs.length < 2 ^ 64) (hwf : ∀ r ∈ rs, WfRec r) :
    ∃ m', deserialize_manager (encodeFile storedMax rs) path maxVisits
        = some (some m')
      ∧ m'.max_visits = maxVisits
      ∧ m'.path = path
      ∧ m'.users.map (fun u => (u.user_id, u.visits))
          = rs.map (fun r => (r.1, r.2.take maxVisits)) := by
  refine ⟨_, deserialize_encodeFile storedMax maxVisits path rs hlen hwf,
    rfl, rfl, ?_⟩
  simp only [List.map_map]
  rfl

/-- Witness for C5: a file declaring capacity bound 99 whose single user
7 stores three visits, decoded with capacity 1, keeps exactly the first
visit in file order. -/
theorem c5_decode_ignores_stored_cap_witness :
    ∃ m', deserialize_manager
        (encodeFile 99 [(7, [⟨1, [97], [], ⟨5, 6⟩⟩, ⟨2, [98], [], ⟨7, 8⟩⟩,
                             ⟨3, [99], [], ⟨9, 1⟩⟩])]) [112] 1 = some (some m')
      ∧ m'.max_visits = 1
      ∧ m'.path = [112]
      ∧ m'.users.map (fun u => (u.user_id, u.visits))
          = [(7, [(⟨1, [97], [], ⟨5, 6⟩⟩ : Visit), ⟨2, [98], [], ⟨7, 8⟩⟩,
                  ⟨3, [99], [], ⟨9, 1⟩⟩])].map
              (fun r => (r.1, r.2.take 1)) :=
  c5_decode_ignores_stored_cap 99 1 [112]
    [(7, [⟨1, [97], [], ⟨5, 6⟩⟩, ⟨2, [98], [], ⟨7, 8⟩⟩, ⟨3, [99], [], ⟨9, 1⟩⟩])]
    (by norm_num) (by decide)

/-- Claim C4: serializing a well-formed manager whose records respect
the capacity bound and decoding the bytes with the same bound
reproduces the bound, the path and every user's `(user_id, visits)`
content — hence every `(user_id, visit_id, url, text, timestamp)` tuple
— exactly (main.go lines 139-184 and 187-343). -/
theorem c4_serialize_roundtrip (m : VisitManager) (hwf : WfManager m)
    (hcap : ∀ u ∈ m.users, u.visits.length ≤ m.max_visits) :
    ∃ m', deserialize_manager (serialize_manager m) m.path m.max_visits
        = some (some m')
      ∧ m'.max_visits = m.max_visits
      ∧ m'.path = m.path
      ∧ m'.users.map (fun u => (u.user_id, u.visits))
          = m.users.map (fun u => (u.user_id, u.visits)) := by
  obtain ⟨h1, h2, h3⟩ := hwf
  have hlen : (m.users.map (fun u => (u.user_id, u.visits))).length < 2 ^ 64 := by
    simpa using h2
  have hwfr : ∀ r ∈ m.users.map (fun u => (u.user_id, u.visits)), WfRec r := by
    intro r hr
    obtain ⟨u, hu, rfl⟩ := List.mem_map.mp hr
    exact h3 u hu
  obtain ⟨m', hdes, hmax, hpath, husers⟩ :=
    c5_decode_ignores_stored_cap m.max_visits m.max_visits m.path
      (m.users.map (fun u => (u.user_id, u.visits))) hlen hwfr
  refine ⟨m', hdes, hmax, hpath, ?_⟩
  rw [husers, List.map_map]
  apply List.map_congr_left
  intro u hu
  simp only [Function.comp]
  rw [List.take_of_length_le (hcap u hu)]

/-- Witness for C4: a one-user manager whose single visit round-trips
through the byte file exactly. -/
theorem c4_serialize_roundtrip_witness :
    ∃ m', deserialize_manager
        (serialize_manager ⟨[⟨7, [⟨1, [97], [98], ⟨5, 6⟩⟩], 5⟩], 10, 3, [112]⟩)
        [112] 3 = some (some m')
      ∧ m'.max_visits = 3
      ∧ m'.path = [112]
      ∧ m'.users.map (fun u => (u.user_id, u.visits))
          = [(⟨7, [⟨1, [97], [98], ⟨5, 6⟩⟩], 5⟩ : UserVisits)].map
              (fun u => (u.user_id, u.visits)) :=
  c4_serialize_roundtrip ⟨[⟨7, [⟨1, [97], [98], ⟨5, 6⟩⟩], 5⟩], 10, 3, [112]⟩
    (by decide) (by decide)
